import Mathlib

/-!
Shallow embedding of the concurrent binary search tree with optimistic lock
coupling from src/src/bst/mod.rs, specialized to the sequential (single
thread, quiescent) semantics of the seqlock contract of spec section 4.1:
a read guard is valid while no write to the node interior has happened since
it was taken, `upgrade` succeeds exactly on still-valid guards, and
`write_lock` always acquires.  Guard validity is carried as an explicit
`guardValid` flag on the cursor.  Crossbeam pointer tag bits are carried as a
`Nat` on each node: `Tree.node tag ...` is the pointer-with-tag stored in the
parent child slot.
-/

namespace BstOlc

/-- Modelled from the spec: the descent direction type `Dir` lives in base.rs,
which is not under src/; spec section 4.2 describes it as Left or Right. -/
inductive Dir : Type where
  | L : Dir
  | R : Dir
deriving DecidableEq, Repr

def Dir.flip : Dir → Dir
  | Dir.L => Dir.R
  | Dir.R => Dir.L

/-- A child slot: null, or a pointer (with crossbeam tag bits `tag`) to a node
carrying an immutable `key` and the seqlock-protected interior `value`,
`left`, `right` (`Node`/`NodeInner` of base.rs, layout per spec section 3). -/
inductive Tree (K V : Type) : Type where
  | null : Tree K V
  | node (tag : Nat) (key : K) (value : Option V) (left right : Tree K V) : Tree K V
deriving DecidableEq, Repr

variable {K V : Type}

/-- Child selection by direction, `NodeInner::child(dir)`. -/
def childOf (d : Dir) (l r : Tree K V) : Tree K V :=
  match d with
  | Dir.L => l
  | Dir.R => r

def Tree.isNull : Tree K V → Bool
  | Tree.null => true
  | Tree.node _ _ _ _ _ => false

/-- Overwrite the tag bits of a pointer, `Shared::with_tag`. -/
def Tree.setTag (n : Nat) : Tree K V → Tree K V
  | Tree.null => Tree.null
  | Tree.node _ k v l r => Tree.node n k v l r

/-- Replace the child of the root node of `t` in direction `d` by `x`. -/
def Tree.setChildD (d : Dir) (x : Tree K V) : Tree K V → Tree K V
  | Tree.null => Tree.null
  | Tree.node tg k v l r =>
    match d with
    | Dir.L => Tree.node tg k v x r
    | Dir.R => Tree.node tg k v l x

def Tree.countNodes : Tree K V → Nat
  | Tree.null => 0
  | Tree.node _ _ _ l r => 1 + l.countNodes + r.countNodes

def Tree.keysList : Tree K V → List K
  | Tree.null => []
  | Tree.node _ k _ l r => l.keysList ++ k :: r.keysList

/-- One ancestor-stack entry of the cursor.  `savedTag` is the tag of the
pointer to this node as saved by `Cursor::push` (which stores it
`with_tag(0)`); `slotTag` is the tag actually stored in this node's parent
slot; `dir` is the direction taken from this node during the descent and
`other` the child not taken. -/
structure Frame (K V : Type) : Type where
  savedTag : Nat
  slotTag : Nat
  key : K
  value : Option V
  dir : Dir
  other : Tree K V
deriving DecidableEq, Repr

/-- The cursor of base.rs/mod.rs: ancestor stack, current node (its saved
pointer tag, its slot tag and its seqlock-protected interior), the direction
whose child is examined next, and the validity of the held read guard
(sequential seqlock semantics of spec section 4.1). -/
structure Cursor (K V : Type) : Type where
  frames : List (Frame K V)
  curSavedTag : Nat
  curSlotTag : Nat
  key : K
  value : Option V
  left : Tree K V
  right : Tree K V
  dir : Dir
  guardValid : Bool
deriving DecidableEq, Repr

/-- The tree object: the root sentinel's right child slot holds the real
tree (spec section 3; base.rs `Bst` is not under src/). -/
structure Bst (K V : Type) : Type where
  root : Tree K V
deriving DecidableEq, Repr

def Bst.empty : Bst K V := ⟨Tree.null⟩

/-- Modelled from the spec: base.rs `Bst::cursor` (not under src/)
initializes the cursor at the root sentinel (arbitrary placeholder key,
value None, real tree hanging in the right child slot), direction Right,
empty ancestor stack, fresh valid read guard (spec sections 3 and 4.2). -/
def Cursor.init [Inhabited K] (b : Bst K V) : Cursor K V :=
  { frames := [], curSavedTag := 0, curSlotTag := 0, key := default,
    value := none, left := Tree.null, right := b.root, dir := Dir.R,
    guardValid := true }

/-- Modelled from the spec: base.rs `Cursor::is_root` (not under src/); the
cursor is at the sentinel exactly when the ancestor stack is empty (spec
section 4.2: pop fails only at the sentinel, i.e. on an empty stack). -/
def Cursor.isRoot (c : Cursor K V) : Bool := c.frames.isEmpty

/-- The current node as the tree stored in its parent slot. -/
def Cursor.curTree (c : Cursor K V) : Tree K V :=
  Tree.node c.curSlotTag c.key c.value c.left c.right

/-- The ancestor entry that `Cursor::push` records for the current node:
the saved (tag-cleared at the previous push) pointer, the old direction and
the child not descended into. -/
def Cursor.mkFrame (c : Cursor K V) : Frame K V :=
  { savedTag := c.curSavedTag, slotTag := c.curSlotTag, key := c.key,
    value := c.value, dir := c.dir, other := childOf c.dir.flip c.left c.right }

/-- `Cursor::push` (mod.rs lines 38-56) on the success path: the current
guard validated, the pair (current, dir) is pushed, the child's fresh read
guard is adopted, the child pointer is stored `with_tag(0)` and the new
direction is `d`. -/
def Cursor.pushChild (c : Cursor K V) (tg : Nat) (ck : K) (cv : Option V)
    (cl cr : Tree K V) (d : Dir) : Cursor K V :=
  { frames := c.mkFrame :: c.frames, curSavedTag := 0, curSlotTag := tg,
    key := ck, value := cv, left := cl, right := cr, dir := d,
    guardValid := true }

/-- `Cursor::pop` (mod.rs lines 22-33): fail at the root sentinel, else pop
the ancestor stack via an unwrap, make the popped entry current and take a
fresh read guard on it.  The unreachable-unwrap case is rendered as the
error result. -/
def Cursor.popC (c : Cursor K V) : Except Unit (Cursor K V) :=
  if c.isRoot then Except.error ()
  else
    match c.frames.head? with
    | none => Except.error ()
    | some f =>
      Except.ok
        { frames := c.frames.tail, curSavedTag := f.savedTag,
          curSlotTag := f.slotTag, key := f.key, value := f.value,
          left := if f.dir = Dir.L then c.curTree else f.other,
          right := if f.dir = Dir.R then c.curTree else f.other,
          dir := f.dir, guardValid := true }

/-- Write into the current node's child slot in the current direction,
`(*write_guard).child(self.dir).store(..)`. -/
def Cursor.setChildAtDir (c : Cursor K V) (t : Tree K V) : Cursor K V :=
  match c.dir with
  | Dir.L => { c with left := t }
  | Dir.R => { c with right := t }

/-- `Cursor::find` (mod.rs lines 63-108) in the sequential setting where
every push validates: examine the child `t` of the current node in the
current direction; on null return Less or Greater according to the
direction; on a key match push the child with direction Right and return
Equal; if the searched key is greater push Right and continue, if smaller
push Left and continue.  Invoked with `t = childOf c.dir c.left c.right`. -/
def findAux [LinearOrder K] (k : K) : Tree K V → Cursor K V → Cursor K V × Ordering
  | Tree.null, c =>
    (c, match c.dir with
        | Dir.L => Ordering.lt
        | Dir.R => Ordering.gt)
  | Tree.node tg ck cv cl cr, c =>
    if k = ck then (c.pushChild tg ck cv cl cr Dir.R, Ordering.eq)
    else if ck < k then findAux k cr (c.pushChild tg ck cv cl cr Dir.R)
    else findAux k cl (c.pushChild tg ck cv cl cr Dir.L)

/-- One iteration of the `find` loop (mod.rs lines 64-107) with the outcome
of `push`'s validation of the current guard made explicit: `pushOk = false`
models a failed validation, upon which the child guard is discarded, the
cursor guard is restarted and the loop continues from the same current node
(`Sum.inl` = continue the loop, `Sum.inr` = return). -/
def findStep [LinearOrder K] (c : Cursor K V) (k : K) (pushOk : Bool) :
    Sum (Cursor K V) (Cursor K V × Ordering) :=
  match childOf c.dir c.left c.right with
  | Tree.null =>
    Sum.inr (c, match c.dir with
                | Dir.L => Ordering.lt
                | Dir.R => Ordering.gt)
  | Tree.node tg ck cv cl cr =>
    if pushOk then
      if k = ck then Sum.inr (c.pushChild tg ck cv cl cr Dir.R, Ordering.eq)
      else if ck < k then Sum.inl (c.pushChild tg ck cv cl cr Dir.R)
      else Sum.inl (c.pushChild tg ck cv cl cr Dir.L)
    else Sum.inl { c with guardValid := true }

/-- `Cursor::cleanup` (mod.rs lines 114-167).  On a live current node or at
the sentinel do nothing; on a vacant node with two non-null children do
nothing; otherwise upgrade the held guard on the current node A (fails on an
invalid guard, aborting), pop to the parent, abort when the popped saved
pointer carries a nonzero tag, take the parent write lock (always acquires;
it invalidates the parent read guard just taken by pop, hence
`guardValid := false` on the continuation cursor), write null or the
surviving child - in the one-child cases after tagging A's surviving child
pointer with 1 - into the parent slot at the popped direction, schedule A
for deferred destruction (collected in the returned list) and recurse at
the parent. -/
def cleanup : Cursor K V → Cursor K V × List (Tree K V)
  | c =>
    match c.value with
    | some _ => (c, [])
    | none =>
      if c.isRoot then (c, [])
      else if !c.right.isNull && !c.left.isNull then (c, [])
      else if c.guardValid then
        match hp : c.popC with
        | Except.error _ => (c, [])
        | Except.ok c2 =>
          if c2.curSavedTag ≠ 0 then (c2, [])
          else if c.right.isNull && c.left.isNull then
            let c3 := { c2.setChildAtDir Tree.null with guardValid := false }
            let r := cleanup c3
            (r.1, Tree.node c.curSlotTag c.key c.value c.left c.right :: r.2)
          else if c.left.isNull then
            let c3 := { c2.setChildAtDir c.right with guardValid := false }
            let r := cleanup c3
            (r.1, Tree.node c.curSlotTag c.key c.value c.left (Tree.setTag 1 c.right) :: r.2)
          else
            let c3 := { c2.setChildAtDir c.left with guardValid := false }
            let r := cleanup c3
            (r.1, Tree.node c.curSlotTag c.key c.value (Tree.setTag 1 c.left) c.right :: r.2)
      else (c, [])
termination_by c => c.frames.length
decreasing_by
  all_goals
    have hfr : c2.frames = c.frames.tail := by
      unfold Cursor.popC at hp
      split at hp
      · exact absurd hp (by simp)
      · cases hf : c.frames.head? with
        | none => rw [hf] at hp; exact absurd hp (by simp)
        | some f => rw [hf] at hp; cases hp; rfl
    have hne : c.frames ≠ [] := by
      intro hnil
      unfold Cursor.popC at hp
      rw [if_pos (by simp [Cursor.isRoot, hnil])] at hp
      exact absurd hp (by simp)
    have hsf : ∀ x : Tree K V, (c2.setChildAtDir x).frames = c2.frames := by
      intro x
      cases hd : c2.dir <;> simp [Cursor.setChildAtDir, hd]
    simp only [hsf]
    cases hl2 : c.frames with
    | nil => exact absurd hl2 hne
    | cons f fs =>
      rw [hfr, hl2]
      simp

/-- Plug a subtree back into an ancestor frame: the frame's node with the
subtree in the recorded direction. -/
def Frame.plug (f : Frame K V) (t : Tree K V) : Tree K V :=
  match f.dir with
  | Dir.L => Tree.node f.slotTag f.key f.value t f.other
  | Dir.R => Tree.node f.slotTag f.key f.value f.other t

/-- Rebuild the tree around a subtree from an ancestor stack (innermost
frame first). -/
def plugFrames : List (Frame K V) → Tree K V → Tree K V
  | [], t => t
  | f :: fs, t => plugFrames fs (f.plug t)

/-- The whole tree (down from the root sentinel node) denoted by a cursor. -/
def Cursor.plugAll (c : Cursor K V) : Tree K V :=
  plugFrames c.frames c.curTree

/-- Read back the tree object from the sentinel-level tree: the tree hangs
off the sentinel's right child slot. -/
def Tree.toBst : Tree K V → Bst K V
  | Tree.null => ⟨Tree.null⟩
  | Tree.node _ _ _ _ r => ⟨r⟩

/-- `Bst::find`-style full descent: run the cursor from the sentinel. -/
def Bst.findCursor [LinearOrder K] [Inhabited K] (b : Bst K V) (k : K) :
    Cursor K V × Ordering :=
  findAux k b.root (Cursor.init b)

/-- The body of `insert` after the upgrade of the cursor guard (mod.rs lines
183-213): on Equal store the value if the slot is vacant else hand the value
back; on Less/Greater publish a fresh node (value Some, null children,
untagged pointer) into the current node's left/right slot. -/
def insertFinish (c : Cursor K V) (ord : Ordering) (k : K) (v : V) :
    Cursor K V × Except V Unit :=
  match ord with
  | Ordering.eq =>
    if c.value.isNone then ({ c with value := some v }, Except.ok ())
    else (c, Except.error v)
  | Ordering.lt =>
    ({ c with left := Tree.node 0 k (some v) Tree.null Tree.null }, Except.ok ())
  | Ordering.gt =>
    ({ c with right := Tree.node 0 k (some v) Tree.null Tree.null }, Except.ok ())

/-- `insert` (mod.rs lines 179-220) in the sequential setting: the fresh
cursor's guard is never invalidated, so the upgrade at line 183 succeeds and
the retry loop runs exactly one iteration (`findAux_guardValid` below). -/
def Bst.insertOp [LinearOrder K] [Inhabited K] (b : Bst K V) (k : K) (v : V) :
    Bst K V × Except V Unit :=
  let p := b.findCursor k
  let q := insertFinish p.1 p.2 k v
  (q.1.plugAll.toBst, q.2)

/-- The body of `delete` after the upgrade of the cursor guard succeeds
(mod.rs lines 231-243): Err on a non-Equal find or a vacant value; else the
value is atomically swapped to None under the upgraded clone of the cursor
guard - a write that invalidates the cursor's remaining read guard (spec
section 4.1), whence `guardValid := false` - and `cleanup` runs. -/
def delTail (p : Cursor K V × Ordering) : Cursor K V × Except Unit V :=
  match p.2 with
  | Ordering.eq =>
    match p.1.value with
    | none => (p.1, Except.error ())
    | some v =>
      let c1 := { p.1 with value := none, guardValid := false }
      let r := cleanup c1
      (r.1, Except.ok v)
  | _ => (p.1, Except.error ())

/-- `delete` (mod.rs lines 226-250) in the sequential setting (one retry
iteration, as for insert). -/
def Bst.deleteOp [LinearOrder K] [Inhabited K] (b : Bst K V) (k : K) :
    Bst K V × Except Unit V :=
  let q := delTail (b.findCursor k)
  (q.1.plugAll.toBst, q.2)

/-- The argument of the `unwrap` at mod.rs line 236: `some ov` exactly when
delete reaches the swap (find returned Equal and the `is_none` test at line
233 was false), `ov` being the value swapped out. -/
def Bst.deleteSwapped [LinearOrder K] [Inhabited K] (b : Bst K V) (k : K) :
    Option (Option V) :=
  let p := b.findCursor k
  if p.2 = Ordering.eq ∧ p.1.value.isNone = false then some p.1.value else none

/-- `lookup` (mod.rs lines 253-272) in the sequential setting: if find is
not Equal apply the caller's function to none, else upgrade the cursor
guard (which succeeds, `findAux_guardValid` below) and apply the function
to the current value. -/
def Bst.lookupOp {R : Type} [LinearOrder K] [Inhabited K] (b : Bst K V)
    (k : K) (f : Option V → R) : R :=
  let p := b.findCursor k
  if p.2 = Ordering.eq then f p.1.value else f none

/-- A sequential client operation on the map facade. -/
inductive Op (K V : Type) : Type where
  | ins (k : K) (v : V) : Op K V
  | del (k : K) : Op K V
  | look (k : K) : Op K V
deriving DecidableEq, Repr

/-- State transition of one operation; `lookup` performs no writes to the
tree (mod.rs lines 253-272 only read the value), so it leaves the tree
unchanged. -/
def applyOp [LinearOrder K] [Inhabited K] (b : Bst K V) : Op K V → Bst K V
  | Op.ins k v => (b.insertOp k v).1
  | Op.del k => (b.deleteOp k).1
  | Op.look _ => b

def applyOps [LinearOrder K] [Inhabited K] (ops : List (Op K V)) (b : Bst K V) :
    Bst K V :=
  ops.foldl applyOp b

/-- Functional mirror of the tree transformation performed by one insert,
derived below (`findAux_insert_spec`) from the cursor-based code: descend by
comparison; at null allocate the fresh node; on a key match fill the value
slot only if it was vacant. -/
def insertAtF [LinearOrder K] (k : K) (v : V) : Tree K V → Tree K V
  | Tree.null => Tree.node 0 k (some v) Tree.null Tree.null
  | Tree.node tg ck cv l r =>
    if k = ck then Tree.node tg ck (if cv.isNone then some v else cv) l r
    else if ck < k then Tree.node tg ck cv l (insertAtF k v r)
    else Tree.node tg ck cv (insertAtF k v l) r

/-- Functional mirror of insert's returned result. -/
def insResF [LinearOrder K] (k : K) (v : V) : Tree K V → Except V Unit
  | Tree.null => Except.ok ()
  | Tree.node _ ck cv l r =>
    if k = ck then (if cv.isNone then Except.ok () else Except.error v)
    else if ck < k then insResF k v r
    else insResF k v l

/-- Search along the comparison path: none if the key is absent, otherwise
the (optional) value stored at the key's node. -/
def lookupPath [LinearOrder K] (k : K) : Tree K V → Option (Option V)
  | Tree.null => none
  | Tree.node _ ck cv l r =>
    if k = ck then some cv
    else if ck < k then lookupPath k r
    else lookupPath k l

/-- The live binding of a key: some v exactly when the key's node exists
and holds a live value. -/
def lookupLive [LinearOrder K] (k : K) (t : Tree K V) : Option V :=
  match lookupPath k t with
  | some (some v) => some v
  | _ => none

/-- Overwrite only the value slot of the node at key `k`, keeping the key,
both child pointers, all tags and the rest of the tree intact. -/
def setValueAtF [LinearOrder K] (k : K) (ov : Option V) : Tree K V → Tree K V
  | Tree.null => Tree.null
  | Tree.node tg ck cv l r =>
    if k = ck then Tree.node tg ck ov l r
    else if ck < k then Tree.node tg ck cv l (setValueAtF k ov r)
    else Tree.node tg ck cv (setValueAtF k ov l) r

/-- Functional mirror of the tree transformation performed by one delete
(tombstoning only: cleanup aborts, see `cleanup_guard_invalid` below). -/
def deleteAtF [LinearOrder K] (k : K) : Tree K V → Tree K V
  | Tree.null => Tree.null
  | Tree.node tg ck cv l r =>
    if k = ck then Tree.node tg ck none l r
    else if ck < k then Tree.node tg ck cv l (deleteAtF k r)
    else Tree.node tg ck cv (deleteAtF k l) r

/-- Functional mirror of delete's returned result. -/
def delResF [LinearOrder K] (k : K) : Tree K V → Except Unit V
  | Tree.null => Except.error ()
  | Tree.node _ ck cv l r =>
    if k = ck then
      (match cv with
       | none => Except.error ()
       | some v => Except.ok v)
    else if ck < k then delResF k r
    else delResF k l

/-- All keys of the tree satisfy `p`. -/
def Tree.allKeysB (p : K → Bool) : Tree K V → Bool
  | Tree.null => true
  | Tree.node _ k _ l r => p k && l.allKeysB p && r.allKeysB p

/-- The binary-search-tree ordering invariant over every node, live and
vacant alike: all keys in the left subtree are strictly smaller, all keys in
the right subtree strictly greater. -/
def Tree.orderedB [LinearOrder K] : Tree K V → Bool
  | Tree.null => true
  | Tree.node _ k _ l r =>
    l.allKeysB (fun x => decide (x < k)) && r.allKeysB (fun x => decide (k < x))
      && l.orderedB && r.orderedB

/-- Cleanup convergence (spec section 8): no reachable vacant node has fewer
than two non-null children. -/
def Tree.convergedB : Tree K V → Bool
  | Tree.null => true
  | Tree.node _ _ v l r =>
    (v.isSome || (!l.isNull && !r.isNull)) && l.convergedB && r.convergedB

/-- A cursor state reachable under concurrency: the current node A (key 20,
vacant, only a right child) hangs under its parent (key 10) by a slot
pointer carrying the retired tag 1 - the state a concurrent cleanup leaves
at mod.rs line 148 after unlinking the parent - while the cursor saved
pointers carry tag 0, as `push` always stores them. -/
def retiredSlotCursor : Cursor Nat Nat :=
  { frames := [{ savedTag := 0, slotTag := 0, key := 10, value := some 1,
                 dir := Dir.R, other := Tree.null }],
    curSavedTag := 0, curSlotTag := 1, key := 20, value := none,
    left := Tree.null, right := Tree.node 0 30 (some 2) Tree.null Tree.null,
    dir := Dir.R, guardValid := true }

/-- The parent cursor that popping `retiredSlotCursor` yields. -/
def retiredSlotParent : Cursor Nat Nat :=
  { frames := [], curSavedTag := 0, curSlotTag := 0, key := 10,
    value := some 1, left := Tree.null,
    right := Tree.node 1 20 none Tree.null
      (Tree.node 0 30 (some 2) Tree.null Tree.null),
    dir := Dir.R, guardValid := true }

/-- A concrete cursor at a vacant leaf (key 5) hanging right of a live
parent (key 3) that hangs right of the sentinel. -/
def exVacantLeafCursor : Cursor Nat Nat :=
  { frames := [{ savedTag := 0, slotTag := 0, key := 3, value := some 1,
                 dir := Dir.R, other := Tree.null }],
    curSavedTag := 0, curSlotTag := 0, key := 5, value := none,
    left := Tree.null, right := Tree.null, dir := Dir.R, guardValid := true }

/-- The parent cursor that popping `exVacantLeafCursor` yields. -/
def exPoppedParent : Cursor Nat Nat :=
  { frames := [], curSavedTag := 0, curSlotTag := 0, key := 3,
    value := some 1, left := Tree.null,
    right := Tree.node 0 5 none Tree.null Tree.null, dir := Dir.R,
    guardValid := true }

theorem Cursor.mkFrame_plug (c : Cursor K V) (x : Tree K V) :
    c.mkFrame.plug x = Tree.setChildD c.dir x c.curTree := by
  cases h : c.dir <;>
    simp [Cursor.mkFrame, Frame.plug, Tree.setChildD, Cursor.curTree,
      Dir.flip, childOf, h]

theorem findAux_guardValid [LinearOrder K] (k : K) :
    ∀ (t : Tree K V) (c : Cursor K V), c.guardValid = true →
      ((findAux k t c).1).guardValid = true := by
  intro t
  induction t with
  | null => intro c h; simpa [findAux] using h
  | node tg ck cv cl cr ihl ihr =>
    intro c h
    by_cases he : k = ck
    · simp [findAux, he, Cursor.pushChild]
    · by_cases hlt : ck < k
      · simpa [findAux, he, hlt] using ihr _ (by simp [Cursor.pushChild])
      · simpa [findAux, he, hlt] using ihl _ (by simp [Cursor.pushChild])

theorem cleanup_guard_invalid (c : Cursor K V) (h : c.guardValid = false) :
    cleanup c = (c, []) := by
  rw [cleanup]
  split
  · rfl
  · by_cases h1 : c.isRoot = true
    · simp [h1]
    · simp [h1, h]

theorem findAux_insert_spec [LinearOrder K] (k : K) (v : V) :
    ∀ (t : Tree K V) (c : Cursor K V),
      ((insertFinish (findAux k t c).1 (findAux k t c).2 k v).1).plugAll
          = plugFrames c.frames (Tree.setChildD c.dir (insertAtF k v t) c.curTree)
      ∧ (insertFinish (findAux k t c).1 (findAux k t c).2 k v).2
          = insResF k v t := by
  intro t
  induction t with
  | null =>
    intro c
    cases hd : c.dir <;>
      simp [findAux, insertFinish, insertAtF, insResF, hd, Cursor.plugAll,
        Cursor.curTree, Tree.setChildD]
  | node tg ck cv cl cr ihl ihr =>
    intro c
    by_cases he : k = ck
    · subst he
      by_cases hn : cv.isNone
      · simp [findAux, insertFinish, insertAtF, insResF, hn, Cursor.pushChild,
          Cursor.plugAll, Cursor.curTree, plugFrames, Cursor.mkFrame_plug]
      · simp [findAux, insertFinish, insertAtF, insResF, hn, Cursor.pushChild,
          Cursor.plugAll, Cursor.curTree, plugFrames, Cursor.mkFrame_plug]
    · by_cases hlt : ck < k
      · have ih := ihr (c.pushChild tg ck cv cl cr Dir.R)
        have hstep : findAux k (Tree.node tg ck cv cl cr) c
            = findAux k cr (c.pushChild tg ck cv cl cr Dir.R) := by
          simp [findAux, he, hlt]
        rw [hstep]
        refine ⟨?_, ?_⟩
        · rw [ih.1]
          simp [Cursor.pushChild, Cursor.plugAll, Cursor.curTree, plugFrames,
            Cursor.mkFrame_plug, Tree.setChildD, insertAtF, he, hlt]
        · rw [ih.2]
          simp [insResF, he, hlt]
      · have ih := ihl (c.pushChild tg ck cv cl cr Dir.L)
        have hstep : findAux k (Tree.node tg ck cv cl cr) c
            = findAux k cl (c.pushChild tg ck cv cl cr Dir.L) := by
          simp [findAux, he, hlt]
        rw [hstep]
        refine ⟨?_, ?_⟩
        · rw [ih.1]
          simp [Cursor.pushChild, Cursor.plugAll, Cursor.curTree, plugFrames,
            Cursor.mkFrame_plug, Tree.setChildD, insertAtF, he, hlt]
        · rw [ih.2]
          simp [insResF, he, hlt]

theorem findAux_delete_spec [LinearOrder K] (k : K) :
    ∀ (t : Tree K V) (c : Cursor K V),
      childOf c.dir c.left c.right = t →
      ((delTail (findAux k t c)).1).plugAll
          = plugFrames c.frames (Tree.setChildD c.dir (deleteAtF k t) c.curTree)
      ∧ (delTail (findAux k t c)).2 = delResF k t := by
  intro t
  induction t with
  | null =>
    intro c hco
    cases hd : c.dir with
    | L =>
      rw [hd] at hco
      simp only [childOf] at hco
      simp [findAux, delTail, deleteAtF, delResF, hd, Cursor.plugAll,
        Cursor.curTree, Tree.setChildD, hco]
    | R =>
      rw [hd] at hco
      simp only [childOf] at hco
      simp [findAux, delTail, deleteAtF, delResF, hd, Cursor.plugAll,
        Cursor.curTree, Tree.setChildD, hco]
  | node tg ck cv cl cr ihl ihr =>
    intro c hco
    by_cases he : k = ck
    · subst he
      cases hv : cv with
      | none =>
        simp [findAux, delTail, deleteAtF, delResF, Cursor.pushChild,
          Cursor.plugAll, Cursor.curTree, plugFrames, Cursor.mkFrame_plug]
      | some v =>
        have hg := cleanup_guard_invalid
          ({ frames := c.mkFrame :: c.frames, curSavedTag := 0, curSlotTag := tg,
             key := k, value := none, left := cl, right := cr, dir := Dir.R,
             guardValid := false } : Cursor K V) rfl
        simp [findAux, delTail, deleteAtF, delResF, Cursor.pushChild,
          Cursor.plugAll, Cursor.curTree, plugFrames, Cursor.mkFrame_plug, hg]
    · by_cases hlt : ck < k
      · have ih := ihr (c.pushChild tg ck cv cl cr Dir.R) (by rfl)
        have hstep : findAux k (Tree.node tg ck cv cl cr) c
            = findAux k cr (c.pushChild tg ck cv cl cr Dir.R) := by
          simp [findAux, he, hlt]
        rw [hstep]
        refine ⟨?_, ?_⟩
        · rw [ih.1]
          simp [Cursor.pushChild, Cursor.plugAll, Cursor.curTree, plugFrames,
            Cursor.mkFrame_plug, Tree.setChildD, deleteAtF, he, hlt]
        · rw [ih.2]
          simp [delResF, he, hlt]
      · have ih := ihl (c.pushChild tg ck cv cl cr Dir.L) (by rfl)
        have hstep : findAux k (Tree.node tg ck cv cl cr) c
            = findAux k cl (c.pushChild tg ck cv cl cr Dir.L) := by
          simp [findAux, he, hlt]
        rw [hstep]
        refine ⟨?_, ?_⟩
        · rw [ih.1]
          simp [Cursor.pushChild, Cursor.plugAll, Cursor.curTree, plugFrames,
            Cursor.mkFrame_plug, Tree.setChildD, deleteAtF, he, hlt]
        · rw [ih.2]
          simp [delResF, he, hlt]

theorem Bst.insertOp_spec [LinearOrder K] [Inhabited K] (b : Bst K V) (k : K)
    (v : V) :
    (b.insertOp k v).1 = ⟨insertAtF k v b.root⟩
    ∧ (b.insertOp k v).2 = insResF k v b.root := by
  obtain ⟨h1, h2⟩ := findAux_insert_spec k v b.root (Cursor.init b)
  refine ⟨?_, h2⟩
  show ((insertFinish (findAux k b.root (Cursor.init b)).1
      (findAux k b.root (Cursor.init b)).2 k v).1).plugAll.toBst = _
  rw [h1]
  rfl

theorem Bst.deleteOp_spec [LinearOrder K] [Inhabited K] (b : Bst K V) (k : K) :
    (b.deleteOp k).1 = ⟨deleteAtF k b.root⟩
    ∧ (b.deleteOp k).2 = delResF k b.root := by
  obtain ⟨h1, h2⟩ := findAux_delete_spec k b.root (Cursor.init b) (by rfl)
  refine ⟨?_, h2⟩
  show ((delTail (findAux k b.root (Cursor.init b))).1).plugAll.toBst = _
  rw [h1]
  rfl

theorem Tree.allKeysB_insertAtF [LinearOrder K] (p : K → Bool) (k : K) (v : V) :
    ∀ t : Tree K V, t.allKeysB p = true → p k = true →
      (insertAtF k v t).allKeysB p = true := by
  intro t
  induction t with
  | null => intro _ hp; simp [insertAtF, Tree.allKeysB, hp]
  | node tg ck cv l r ihl ihr =>
    intro ht hp
    simp only [Tree.allKeysB, Bool.and_eq_true] at ht
    obtain ⟨⟨hck, hl⟩, hr⟩ := ht
    by_cases he : k = ck
    · simp [insertAtF, he, Tree.allKeysB, hck, hl, hr]
    · by_cases hlt : ck < k
      · simp [insertAtF, he, hlt, Tree.allKeysB, hck, hl, ihr hr hp]
      · simp [insertAtF, he, hlt, Tree.allKeysB, hck, hr, ihl hl hp]

theorem Tree.orderedB_insertAtF [LinearOrder K] (k : K) (v : V) :
    ∀ t : Tree K V, t.orderedB = true → (insertAtF k v t).orderedB = true := by
  intro t
  induction t with
  | null => intro _; simp [insertAtF, Tree.orderedB, Tree.allKeysB]
  | node tg ck cv l r ihl ihr =>
    intro ht
    simp only [Tree.orderedB, Bool.and_eq_true] at ht
    obtain ⟨⟨⟨hbl, hbr⟩, hol⟩, hor⟩ := ht
    by_cases he : k = ck
    · simp [insertAtF, he, Tree.orderedB, hbl, hbr, hol, hor]
    · by_cases hlt : ck < k
      · have hbr2 := Tree.allKeysB_insertAtF (fun x => decide (ck < x)) k v r
          hbr (by simp [hlt])
        simp [insertAtF, he, hlt, Tree.orderedB, hbl, hbr2, hol, ihr hor]
      · have hklt : k < ck := lt_of_le_of_ne (le_of_not_lt hlt) he
        have hbl2 := Tree.allKeysB_insertAtF (fun x => decide (x < ck)) k v l
          hbl (by simp [hklt])
        simp [insertAtF, he, hlt, Tree.orderedB, hbl2, hbr, ihl hol, hor]

theorem Tree.allKeysB_setValueAtF [LinearOrder K] (p : K → Bool) (k : K)
    (ov : Option V) :
    ∀ t : Tree K V, (setValueAtF k ov t).allKeysB p = t.allKeysB p := by
  intro t
  induction t with
  | null => simp [setValueAtF]
  | node tg ck cv l r ihl ihr =>
    by_cases he : k = ck
    · simp [setValueAtF, he, Tree.allKeysB]
    · by_cases hlt : ck < k
      · simp [setValueAtF, he, hlt, Tree.allKeysB, ihr]
      · simp [setValueAtF, he, hlt, Tree.allKeysB, ihl]

theorem Tree.orderedB_setValueAtF [LinearOrder K] (k : K) (ov : Option V) :
    ∀ t : Tree K V, (setValueAtF k ov t).orderedB = t.orderedB := by
  intro t
  induction t with
  | null => simp [setValueAtF]
  | node tg ck cv l r ihl ihr =>
    by_cases he : k = ck
    · simp [setValueAtF, he, Tree.orderedB]
    · by_cases hlt : ck < k
      · simp [setValueAtF, he, hlt, Tree.orderedB, ihr, Tree.allKeysB_setValueAtF]
      · simp [setValueAtF, he, hlt, Tree.orderedB, ihl, Tree.allKeysB_setValueAtF]

theorem Tree.countNodes_setValueAtF [LinearOrder K] (k : K) (ov : Option V) :
    ∀ t : Tree K V, (setValueAtF k ov t).countNodes = t.countNodes := by
  intro t
  induction t with
  | null => simp [setValueAtF]
  | node tg ck cv l r ihl ihr =>
    by_cases he : k = ck
    · simp [setValueAtF, he, Tree.countNodes]
    · by_cases hlt : ck < k
      · simp [setValueAtF, he, hlt, Tree.countNodes, ihr]
      · simp [setValueAtF, he, hlt, Tree.countNodes, ihl]

theorem Tree.keysList_setValueAtF [LinearOrder K] (k : K) (ov : Option V) :
    ∀ t : Tree K V, (setValueAtF k ov t).keysList = t.keysList := by
  intro t
  induction t with
  | null => simp [setValueAtF]
  | node tg ck cv l r ihl ihr =>
    by_cases he : k = ck
    · simp [setValueAtF, he, Tree.keysList]
    · by_cases hlt : ck < k
      · simp [setValueAtF, he, hlt, Tree.keysList, ihr]
      · simp [setValueAtF, he, hlt, Tree.keysList, ihl]

theorem deleteAtF_eq_setValueAtF [LinearOrder K] (k : K) :
    ∀ t : Tree K V, deleteAtF k t = setValueAtF k (none : Option V) t := by
  intro t
  induction t with
  | null => rfl
  | node tg ck cv l r ihl ihr =>
    by_cases he : k = ck
    · simp [deleteAtF, setValueAtF, he]
    · by_cases hlt : ck < k
      · simp [deleteAtF, setValueAtF, he, hlt, ihr]
      · simp [deleteAtF, setValueAtF, he, hlt, ihl]

theorem insertAtF_of_live [LinearOrder K] (k : K) (v w : V) :
    ∀ t : Tree K V, lookupPath k t = some (some v) →
      insertAtF k w t = t ∧ insResF k w t = Except.error w := by
  intro t
  induction t with
  | null => intro h; exact absurd h (by simp [lookupPath])
  | node tg ck cv l r ihl ihr =>
    intro h
    by_cases he : k = ck
    · rw [lookupPath, if_pos he] at h
      have hcv : cv = some v := by
        injection h
      simp [insertAtF, insResF, he, hcv]
    · by_cases hlt : ck < k
      · rw [lookupPath, if_neg he, if_pos hlt] at h
        obtain ⟨h1, h2⟩ := ihr h
        simp [insertAtF, insResF, he, hlt, h1, h2]
      · rw [lookupPath, if_neg he, if_neg hlt] at h
        obtain ⟨h1, h2⟩ := ihl h
        simp [insertAtF, insResF, he, hlt, h1, h2]

theorem insertAtF_of_vacant [LinearOrder K] (k : K) (v : V) :
    ∀ t : Tree K V, lookupPath k t = some (none : Option V) →
      insertAtF k v t = setValueAtF k (some v) t
      ∧ insResF k v t = Except.ok () := by
  intro t
  induction t with
  | null => intro h; exact absurd h (by simp [lookupPath])
  | node tg ck cv l r ihl ihr =>
    intro h
    by_cases he : k = ck
    · rw [lookupPath, if_pos he] at h
      have hcv : cv = none := by
        injection h
      simp [insertAtF, setValueAtF, insResF, he, hcv]
    · by_cases hlt : ck < k
      · rw [lookupPath, if_neg he, if_pos hlt] at h
        obtain ⟨h1, h2⟩ := ihr h
        simp [insertAtF, setValueAtF, insResF, he, hlt, h1, h2]
      · rw [lookupPath, if_neg he, if_neg hlt] at h
        obtain ⟨h1, h2⟩ := ihl h
        simp [insertAtF, setValueAtF, insResF, he, hlt, h1, h2]

theorem delResF_eq_lookupLive [LinearOrder K] (k : K) :
    ∀ t : Tree K V,
      delResF k t
        = (match lookupLive k t with
           | some v => Except.ok v
           | none => Except.error ()) := by
  intro t
  induction t with
  | null => rfl
  | node tg ck cv l r ihl ihr =>
    by_cases he : k = ck
    · cases cv <;> simp [delResF, lookupLive, lookupPath, he]
    · by_cases hlt : ck < k
      · simp [delResF, lookupLive, lookupPath, he, hlt]
        rw [ihr]
        simp [lookupLive]
      · simp [delResF, lookupLive, lookupPath, he, hlt]
        rw [ihl]
        simp [lookupLive]

theorem cleanup_eq_live (c : Cursor K V) (v : V) (hv : c.value = some v) :
    cleanup c = (c, []) := by
  rw [cleanup, hv]

theorem cleanup_eq_root (c : Cursor K V) (hv : c.value = none)
    (hr : c.isRoot = true) :
    cleanup c = (c, []) := by
  rw [cleanup, hv]
  simp [hr]

theorem cleanup_eq_two_children (c : Cursor K V) (hv : c.value = none)
    (hl : c.left.isNull = false) (hr : c.right.isNull = false) :
    cleanup c = (c, []) := by
  rw [cleanup, hv]
  by_cases hro : c.isRoot = true
  · simp [hro]
  · simp [hro, hl, hr]

theorem cleanup_eq_both_null (c c2 : Cursor K V) (hv : c.value = none)
    (hro : c.isRoot = false) (hg : c.guardValid = true)
    (hpop : c.popC = Except.ok c2) (htag : c2.curSavedTag = 0)
    (hl : c.left = Tree.null) (hr : c.right = Tree.null) :
    cleanup c
      = ((cleanup { c2.setChildAtDir Tree.null with guardValid := false }).1,
         c.curTree ::
           (cleanup { c2.setChildAtDir Tree.null with guardValid := false }).2) := by
  rw [cleanup, hv]
  rw [if_neg (by simp [hro])]
  rw [if_neg (by rw [hl, hr]; simp [Tree.isNull])]
  rw [if_pos (by simp [hg])]
  split
  next a heq => exact absurd heq (by simp)
  next x heq =>
    split
    next a heq2 => rw [hpop] at heq2; exact absurd heq2 (by simp)
    next c2y heq2 =>
      rw [hpop] at heq2
      have hc2 : c2y = c2 := by
        injection heq2 with h2
        exact h2.symm
      subst hc2
      rw [if_neg (by simp [htag])]
      rw [if_pos (by rw [hl, hr]; simp [Tree.isNull])]
      simp [Cursor.curTree, hv, hl, hr]

theorem cleanup_eq_left_null (c c2 : Cursor K V) (hv : c.value = none)
    (hro : c.isRoot = false) (hg : c.guardValid = true)
    (hpop : c.popC = Except.ok c2) (htag : c2.curSavedTag = 0)
    (hl : c.left = Tree.null) (hr : c.right.isNull = false) :
    cleanup c
      = ((cleanup { c2.setChildAtDir c.right with guardValid := false }).1,
         Tree.node c.curSlotTag c.key none c.left (Tree.setTag 1 c.right) ::
           (cleanup { c2.setChildAtDir c.right with guardValid := false }).2) := by
  rw [cleanup, hv]
  rw [if_neg (by simp [hro])]
  rw [if_neg (by rw [hl]; simp [Tree.isNull])]
  rw [if_pos (by simp [hg])]
  split
  next a heq => exact absurd heq (by simp)
  next x heq =>
    split
    next a heq2 => rw [hpop] at heq2; exact absurd heq2 (by simp)
    next c2y heq2 =>
      rw [hpop] at heq2
      have hc2 : c2y = c2 := by
        injection heq2 with h2
        exact h2.symm
      subst hc2
      rw [if_neg (by simp [htag])]
      rw [if_neg (by rw [hr]; simp)]
      rw [if_pos (by rw [hl]; simp [Tree.isNull])]

theorem cleanup_eq_right_null (c c2 : Cursor K V) (hv : c.value = none)
    (hro : c.isRoot = false) (hg : c.guardValid = true)
    (hpop : c.popC = Except.ok c2) (htag : c2.curSavedTag = 0)
    (hl : c.left.isNull = false) (hr : c.right = Tree.null) :
    cleanup c
      = ((cleanup { c2.setChildAtDir c.left with guardValid := false }).1,
         Tree.node c.curSlotTag c.key none (Tree.setTag 1 c.left) c.right ::
           (cleanup { c2.setChildAtDir c.left with guardValid := false }).2) := by
  rw [cleanup, hv]
  rw [if_neg (by simp [hro])]
  rw [if_neg (by rw [hr]; simp [Tree.isNull])]
  rw [if_pos (by simp [hg])]
  split
  next a heq => exact absurd heq (by simp)
  next x heq =>
    split
    next a heq2 => rw [hpop] at heq2; exact absurd heq2 (by simp)
    next c2y heq2 =>
      rw [hpop] at heq2
      have hc2 : c2y = c2 := by
        injection heq2 with h2
        exact h2.symm
      subst hc2
      rw [if_neg (by simp [htag])]
      rw [if_neg (by rw [hr, hl]; simp [Tree.isNull])]
      rw [if_neg (by rw [hl]; simp)]

theorem applyOp_ordered [LinearOrder K] [Inhabited K] (b : Bst K V)
    (op : Op K V) (h : b.root.orderedB = true) :
    ((applyOp b op).root).orderedB = true := by
  cases op with
  | ins k v =>
    show ((b.insertOp k v).1.root).orderedB = true
    rw [(Bst.insertOp_spec b k v).1]
    exact Tree.orderedB_insertAtF k v b.root h
  | del k =>
    show ((b.deleteOp k).1.root).orderedB = true
    rw [(Bst.deleteOp_spec b k).1]
    show (deleteAtF k b.root).orderedB = true
    rw [deleteAtF_eq_setValueAtF, Tree.orderedB_setValueAtF]
    exact h
  | look k => exact h

theorem applyOps_ordered [LinearOrder K] [Inhabited K] :
    ∀ (ops : List (Op K V)) (b : Bst K V), b.root.orderedB = true →
      ((applyOps ops b).root).orderedB = true := by
  intro ops
  induction ops with
  | nil => intro b h; exact h
  | cons op rest ih =>
    intro b h
    show ((applyOps rest (applyOp b op)).root).orderedB = true
    exact ih _ (applyOp_ordered b op h)

/-- C1: Binary-search-tree ordering invariant.  After any sequence of
insert, delete and lookup operations starting from the empty tree, every
node reachable from the root satisfies: every key in the subtree rooted at
its left child is strictly less than its key and every key in the subtree
rooted at its right child is strictly greater; this holds for live and
vacant (value = none) nodes alike, since `Tree.orderedB` never inspects
values. -/
theorem claim1_bst_ordering_invariant [LinearOrder K] [Inhabited K]
    (ops : List (Op K V)) :
    ((applyOps ops (Bst.empty : Bst K V)).root).orderedB = true :=
  applyOps_ordered ops Bst.empty rfl

/-- C2: insert on a key bound to a live value rejects.  If key `k` is bound
to a live value `v` (the node holds some v on the search path), then
`insert k w` returns the rejected value `w` back unchanged as the error and
leaves the whole tree - in particular the stored binding of `k` to `v` -
in place. -/
theorem claim2_insert_live_key_rejects [LinearOrder K] [Inhabited K]
    (b : Bst K V) (k : K) (v w : V)
    (h : lookupPath k b.root = some (some v)) :
    b.insertOp k w = (b, Except.error w) := by
  obtain ⟨hu, hres⟩ := insertAtF_of_live k v w b.root h
  have h1 := (Bst.insertOp_spec b k w).1
  have h2 := (Bst.insertOp_spec b k w).2
  rw [hu] at h1
  rw [hres] at h2
  calc b.insertOp k w = ((b.insertOp k w).1, (b.insertOp k w).2) := rfl
    _ = (b, Except.error w) := by rw [h1, h2]

/-- Witness for C2 at a concrete input. -/
theorem claim2_witness :
    (Bst.mk (Tree.node 0 5 (some 7) Tree.null Tree.null) : Bst Nat Nat).insertOp 5 9
      = (Bst.mk (Tree.node 0 5 (some 7) Tree.null Tree.null), Except.error 9) :=
  claim2_insert_live_key_rejects _ 5 7 9 (by decide)

/-- C3: insert into a vacant node reuses it.  If the tree contains a vacant
node with key `k` (value none on the search path), `insert k v` stores
some v into that existing node's value slot (`setValueAtF` changes only the
value field of that node), returns Ok, and allocates no new node (the node
count is unchanged). -/
theorem claim3_insert_vacant_reuses_node [LinearOrder K] [Inhabited K]
    (b : Bst K V) (k : K) (v : V)
    (h : lookupPath k b.root = some (none : Option V)) :
    (b.insertOp k v).2 = Except.ok ()
    ∧ (b.insertOp k v).1.root = setValueAtF k (some v) b.root
    ∧ ((b.insertOp k v).1.root).countNodes = b.root.countNodes := by
  obtain ⟨hu, hres⟩ := insertAtF_of_vacant k v b.root h
  have h1 := (Bst.insertOp_spec b k v).1
  have h2 := (Bst.insertOp_spec b k v).2
  refine ⟨by rw [h2, hres], ?_, ?_⟩
  · rw [h1]
    show insertAtF k v b.root = _
    rw [hu]
  · rw [h1]
    show (insertAtF k v b.root).countNodes = _
    rw [hu, Tree.countNodes_setValueAtF]

/-- Witness for C3 at a concrete input. -/
theorem claim3_witness :
    ((Bst.mk (Tree.node 0 5 none Tree.null Tree.null) : Bst Nat Nat).insertOp 5 9).2
        = Except.ok ()
    ∧ ((Bst.mk (Tree.node 0 5 none Tree.null Tree.null) : Bst Nat Nat).insertOp 5 9).1.root
        = setValueAtF 5 (some 9) (Bst.mk (Tree.node 0 5 none Tree.null Tree.null) : Bst Nat Nat).root
    ∧ (((Bst.mk (Tree.node 0 5 none Tree.null Tree.null) : Bst Nat Nat).insertOp 5 9).1.root).countNodes
        = ((Bst.mk (Tree.node 0 5 none Tree.null Tree.null) : Bst Nat Nat).root).countNodes :=
  claim3_insert_vacant_reuses_node _ 5 9 (by decide)

/-- C4: delete result specification.  `delete k` returns Err exactly when
`k` is absent from the search path or its node is already vacant
(`lookupLive` is none in both cases); otherwise it returns Ok with the
previous live value and the resulting tree is the original with only that
node's value slot swapped to none - key, both child pointers and all other
nodes untouched (`setValueAtF`), so the key multiset is unchanged. -/
theorem claim4_delete_spec [LinearOrder K] [Inhabited K] (b : Bst K V)
    (k : K) :
    ((b.deleteOp k).2 = Except.error () ↔ lookupLive k b.root = none)
    ∧ (∀ v : V, lookupLive k b.root = some v →
        (b.deleteOp k).2 = Except.ok v
        ∧ (b.deleteOp k).1.root = setValueAtF k none b.root
        ∧ ((b.deleteOp k).1.root).keysList = b.root.keysList) := by
  have h1 := (Bst.deleteOp_spec b k).1
  have h2 := (Bst.deleteOp_spec b k).2
  have hd := delResF_eq_lookupLive k b.root
  constructor
  · rw [h2, hd]
    cases hl : lookupLive k b.root with
    | none => simp
    | some v => simp
  · intro v hv
    refine ⟨by rw [h2, hd, hv], ?_, ?_⟩
    · rw [h1]
      show deleteAtF k b.root = _
      rw [deleteAtF_eq_setValueAtF]
    · rw [h1]
      show (deleteAtF k b.root).keysList = _
      rw [deleteAtF_eq_setValueAtF, Tree.keysList_setValueAtF]

/-- Witness for C4 at a concrete input. -/
theorem claim4_witness :
    ((Bst.mk (Tree.node 0 5 (some 7) Tree.null Tree.null) : Bst Nat Nat).deleteOp 5).2
        = Except.ok 7
    ∧ ((Bst.mk (Tree.node 0 5 (some 7) Tree.null Tree.null) : Bst Nat Nat).deleteOp 5).1.root
        = setValueAtF 5 none (Bst.mk (Tree.node 0 5 (some 7) Tree.null Tree.null) : Bst Nat Nat).root
    ∧ (((Bst.mk (Tree.node 0 5 (some 7) Tree.null Tree.null) : Bst Nat Nat).deleteOp 5).1.root).keysList
        = ((Bst.mk (Tree.node 0 5 (some 7) Tree.null Tree.null) : Bst Nat Nat).root).keysList :=
  (claim4_delete_spec _ 5).2 7 (by decide)

/-- C5: lookup calls the caller's function as specified.  If find does not
return Equal the function is applied to none (in particular on the empty
tree); if find returns Equal the function is applied to the node's current
value - which may itself be none for a vacant tombstone - and the cursor
guard at that point is still valid, so the upgrade taken by the code
succeeds. -/
theorem claim5_lookup_spec {R : Type} [LinearOrder K] [Inhabited K]
    (b : Bst K V) (k : K) (f : Option V → R) :
    ((b.findCursor k).2 ≠ Ordering.eq → b.lookupOp k f = f none)
    ∧ ((b.findCursor k).2 = Ordering.eq →
        b.lookupOp k f = f ((b.findCursor k).1.value)
        ∧ ((b.findCursor k).1).guardValid = true)
    ∧ Bst.lookupOp (Bst.empty : Bst K V) k f = f none := by
  refine ⟨?_, ?_, ?_⟩
  · intro h
    show (if (b.findCursor k).2 = Ordering.eq
        then f (b.findCursor k).1.value else f none) = f none
    rw [if_neg h]
  · intro h
    refine ⟨?_, ?_⟩
    · show (if (b.findCursor k).2 = Ordering.eq
          then f (b.findCursor k).1.value else f none) = _
      rw [if_pos h]
    · exact findAux_guardValid k b.root (Cursor.init b) rfl
  · simp [Bst.lookupOp, Bst.findCursor, findAux, Cursor.init, Bst.empty]

/-- Witness for C5 at concrete inputs. -/
theorem claim5_witness :
    (Bst.mk (Tree.node 0 3 (some 4) Tree.null Tree.null) : Bst Nat Nat).lookupOp 3 (fun x => x)
      = ((Bst.mk (Tree.node 0 3 (some 4) Tree.null Tree.null) : Bst Nat Nat).findCursor 3).1.value
    ∧ (((Bst.mk (Tree.node 0 3 (some 4) Tree.null Tree.null) : Bst Nat Nat).findCursor 3).1).guardValid = true
    ∧ (Bst.mk (Tree.node 0 3 (some 4) Tree.null Tree.null) : Bst Nat Nat).lookupOp 9 (fun x => x) = none :=
  ⟨((claim5_lookup_spec _ 3 (fun x => x)).2.1 (by decide)).1,
   ((claim5_lookup_spec _ 3 (fun x => x)).2.1 (by decide)).2,
   (claim5_lookup_spec _ 9 (fun x => x)).1 (by decide)⟩

/-- C6: cursor find behavior.  When the child in the current direction is
null, find returns Less for Left and Greater for Right; on a key match it
pushes the child with direction Right and returns Equal; for a greater
searched key it descends Right, for a smaller one Left; and when a push
fails (validation failure, `pushOk = false`), the loop continues from the
very same current node with the guard restarted - the path is not rewound
- re-reading the child pointer; the successful step agrees with `findAux`. -/
theorem claim6_find_spec [LinearOrder K] (c : Cursor K V) (k : K) (tg : Nat)
    (ck : K) (cv : Option V) (cl cr : Tree K V) :
    (c.dir = Dir.L → findAux k Tree.null c = (c, Ordering.lt))
    ∧ (c.dir = Dir.R → findAux k Tree.null c = (c, Ordering.gt))
    ∧ (k = ck → findAux k (Tree.node tg ck cv cl cr) c
        = (c.pushChild tg ck cv cl cr Dir.R, Ordering.eq))
    ∧ (ck < k → findAux k (Tree.node tg ck cv cl cr) c
        = findAux k cr (c.pushChild tg ck cv cl cr Dir.R))
    ∧ (k < ck → findAux k (Tree.node tg ck cv cl cr) c
        = findAux k cl (c.pushChild tg ck cv cl cr Dir.L))
    ∧ (childOf c.dir c.left c.right = Tree.node tg ck cv cl cr →
        findStep c k false = Sum.inl { c with guardValid := true })
    ∧ (∀ c2 : Cursor K V, findStep c k true = Sum.inl c2 →
        findAux k (childOf c.dir c.left c.right) c
          = findAux k (childOf c2.dir c2.left c2.right) c2)
    ∧ (∀ r : Cursor K V × Ordering, findStep c k true = Sum.inr r →
        findAux k (childOf c.dir c.left c.right) c = r) := by
  refine ⟨?_, ?_, ?_, ?_, ?_, ?_, ?_, ?_⟩
  · intro h; simp [findAux, h]
  · intro h; simp [findAux, h]
  · intro h; simp [findAux, h]
  · intro h
    have hne : ¬(k = ck) := (ne_of_lt h).symm
    simp [findAux, hne, h]
  · intro h
    have hne : ¬(k = ck) := ne_of_lt h
    have hnlt : ¬(ck < k) := lt_asymm h
    simp [findAux, hne, hnlt]
  · intro hchild
    simp [findStep, hchild]
  · intro c2 hstep
    cases hchild : childOf c.dir c.left c.right with
    | null => simp [findStep, hchild] at hstep
    | node tg2 ck2 cv2 cl2 cr2 =>
      by_cases he : k = ck2
      · simp [findStep, hchild, he] at hstep
      · by_cases hlt : ck2 < k
        · simp [findStep, hchild, he, hlt] at hstep
          subst hstep
          simp [findAux, he, hlt, Cursor.pushChild, childOf]
        · simp [findStep, hchild, he, hlt] at hstep
          subst hstep
          simp [findAux, he, hlt, Cursor.pushChild, childOf]
  · intro r hstep
    cases hchild : childOf c.dir c.left c.right with
    | null =>
      simp [findStep, hchild] at hstep
      subst hstep
      simp [findAux]
    | node tg2 ck2 cv2 cl2 cr2 =>
      by_cases he : k = ck2
      · simp [findStep, hchild, he] at hstep
        subst hstep
        simp [findAux, he]
      · by_cases hlt : ck2 < k
        · simp [findStep, hchild, he, hlt] at hstep
        · simp [findStep, hchild, he, hlt] at hstep

/-- Witness for C6 at concrete inputs: a cursor at the sentinel of the tree
with the single node (key 3); the five behaviors instantiated. -/
theorem claim6_witness :
    findAux 5 Tree.null (Cursor.init (Bst.mk Tree.null : Bst Nat Nat))
      = (Cursor.init (Bst.mk Tree.null : Bst Nat Nat), Ordering.gt)
    ∧ findAux 3 (Tree.node 0 3 (some 1) Tree.null Tree.null)
        (Cursor.init (Bst.mk (Tree.node 0 3 (some 1) Tree.null Tree.null) : Bst Nat Nat))
      = ((Cursor.init (Bst.mk (Tree.node 0 3 (some 1) Tree.null Tree.null) : Bst Nat Nat)).pushChild
          0 3 (some 1) Tree.null Tree.null Dir.R, Ordering.eq)
    ∧ findStep (Cursor.init (Bst.mk (Tree.node 0 3 (some 1) Tree.null Tree.null) : Bst Nat Nat)) 5 false
      = Sum.inl { Cursor.init (Bst.mk (Tree.node 0 3 (some 1) Tree.null Tree.null) : Bst Nat Nat)
          with guardValid := true } :=
  ⟨(claim6_find_spec (Cursor.init (Bst.mk Tree.null : Bst Nat Nat)) 5 0 0 none Tree.null Tree.null).2.1 rfl,
   (claim6_find_spec (Cursor.init (Bst.mk (Tree.node 0 3 (some 1) Tree.null Tree.null) : Bst Nat Nat))
      3 0 3 (some 1) Tree.null Tree.null).2.2.1 rfl,
   (claim6_find_spec (Cursor.init (Bst.mk (Tree.node 0 3 (some 1) Tree.null Tree.null) : Bst Nat Nat))
      5 0 3 (some 1) Tree.null Tree.null).2.2.2.2.2.1 rfl⟩

/-- C7: cleanup case analysis on a vacant current node A, given the
upgrade of A's guard succeeds (`guardValid`) and the popped saved pointer
is untagged, as the code checks: at the root sentinel it does nothing; with
two non-null children it does nothing; with both children null it writes
null into the parent's slot in the direction under which A hangs, schedules
A for deferred destruction and recurses at the parent; with exactly one
non-null child it marks A's surviving child pointer with the retired tag 1
in A's interior and writes the surviving child into the parent's slot,
schedules A and recurses at the parent. -/
theorem claim7_cleanup_cases (c c2 : Cursor K V) :
    (c.value = none → c.isRoot = true → cleanup c = (c, []))
    ∧ (c.value = none → c.left.isNull = false → c.right.isNull = false →
        cleanup c = (c, []))
    ∧ (c.value = none → c.isRoot = false → c.guardValid = true →
        c.popC = Except.ok c2 → c2.curSavedTag = 0 →
        c.left = Tree.null → c.right = Tree.null →
        cleanup c
          = ((cleanup { c2.setChildAtDir Tree.null with guardValid := false }).1,
             c.curTree ::
               (cleanup { c2.setChildAtDir Tree.null with guardValid := false }).2))
    ∧ (c.value = none → c.isRoot = false → c.guardValid = true →
        c.popC = Except.ok c2 → c2.curSavedTag = 0 →
        c.left = Tree.null → c.right.isNull = false →
        cleanup c
          = ((cleanup { c2.setChildAtDir c.right with guardValid := false }).1,
             Tree.node c.curSlotTag c.key none c.left (Tree.setTag 1 c.right) ::
               (cleanup { c2.setChildAtDir c.right with guardValid := false }).2))
    ∧ (c.value = none → c.isRoot = false → c.guardValid = true →
        c.popC = Except.ok c2 → c2.curSavedTag = 0 →
        c.left.isNull = false → c.right = Tree.null →
        cleanup c
          = ((cleanup { c2.setChildAtDir c.left with guardValid := false }).1,
             Tree.node c.curSlotTag c.key none (Tree.setTag 1 c.left) c.right ::
               (cleanup { c2.setChildAtDir c.left with guardValid := false }).2)) :=
  ⟨fun hv hr => cleanup_eq_root c hv hr,
   fun hv hl hr => cleanup_eq_two_children c hv hl hr,
   fun hv hro hg hpop htag hl hr =>
     cleanup_eq_both_null c c2 hv hro hg hpop htag hl hr,
   fun hv hro hg hpop htag hl hr =>
     cleanup_eq_left_null c c2 hv hro hg hpop htag hl hr,
   fun hv hro hg hpop htag hl hr =>
     cleanup_eq_right_null c c2 hv hro hg hpop htag hl hr⟩

/-- Witness for C7 at a concrete input: the vacant leaf (key 5) under a
live parent (key 3) is unlinked by writing null into the parent's right
slot, scheduled for destruction, and cleanup recurses at the parent. -/
theorem claim7_witness :
    cleanup exVacantLeafCursor
      = ((cleanup { exPoppedParent.setChildAtDir Tree.null with guardValid := false }).1,
         exVacantLeafCursor.curTree ::
           (cleanup { exPoppedParent.setChildAtDir Tree.null with guardValid := false }).2) :=
  (claim7_cleanup_cases exVacantLeafCursor exPoppedParent).2.2.1 rfl rfl rfl
    rfl rfl rfl rfl

/-- C8 fails on the code (code bug): the claim states that after popping to
the parent P, cleanup aborts when the child pointer stored at P's slot
under which A hangs carries the retired tag, and that write access to P is
acquired by upgrading P's held read guard (failing if P was written since).
The code instead checks the tag of the cursor's popped saved pointer -
which `push` always stores `with_tag(0)` - and takes an unconditional
fresh `write_lock` on P (mod.rs lines 141-144).  At this concrete state the
slot pointer to A carries tag 1 (P was concurrently retired), yet cleanup
does not abort: it rewrites P's slot and schedules A. -/
theorem claim8_cleanup_ignores_retired_slot_tag :
    retiredSlotCursor.curSlotTag = 1
    ∧ cleanup retiredSlotCursor
        = ({ frames := [], curSavedTag := 0, curSlotTag := 0, key := 10,
             value := some 1, left := Tree.null,
             right := Tree.node 0 30 (some 2) Tree.null Tree.null,
             dir := Dir.R, guardValid := false },
           [Tree.node 1 20 none Tree.null
              (Tree.node 1 30 (some 2) Tree.null Tree.null)]) := by
  refine ⟨rfl, ?_⟩
  have h := cleanup_eq_left_null retiredSlotCursor retiredSlotParent rfl rfl rfl
    rfl rfl rfl rfl
  rw [h]
  have hlive := cleanup_eq_live
    ({ retiredSlotParent.setChildAtDir retiredSlotCursor.right with
       guardValid := false }) 1 rfl
  rw [hlive]
  rfl

/-- C9 fails on the code (code bug): the claim states that at a quiescent
point no reachable vacant node has fewer than two non-null children.  But
cleanup can never unlink anything when invoked from delete: delete upgrades
a clone of the cursor guard and writes the value, which bumps the node's
seqlock counter, so cleanup's own upgrade of the same cursor guard always
fails and cleanup aborts.  Sequentially inserting 50 and deleting 50 leaves
the vacant node 50 reachable with zero non-null children. -/
theorem claim9_delete_leaves_unconverged_vacant :
    (applyOps [Op.ins 50 7, Op.del 50] (Bst.empty : Bst Nat Nat)).root
      = Tree.node 0 50 none Tree.null Tree.null
    ∧ ((applyOps [Op.ins 50 7, Op.del 50] (Bst.empty : Bst Nat Nat)).root).convergedB
      = false := by
  have h1 := (Bst.insertOp_spec (Bst.empty : Bst Nat Nat) 50 7).1
  have h2 := (Bst.deleteOp_spec ((Bst.empty : Bst Nat Nat).insertOp 50 7).1 50).1
  have hroot : (applyOps [Op.ins 50 7, Op.del 50] (Bst.empty : Bst Nat Nat)).root
      = Tree.node 0 50 none Tree.null Tree.null := by
    show ((((Bst.empty : Bst Nat Nat).insertOp 50 7).1.deleteOp 50).1).root = _
    rw [h2]
    show deleteAtF 50 ((((Bst.empty : Bst Nat Nat).insertOp 50 7).1).root) = _
    rw [h1]
    rfl
  exact ⟨hroot, by rw [hroot]; rfl⟩

/-- C10: the guarded unwraps cannot fail.  The unwrap in delete (mod.rs
line 236) receives the value swapped out only after the `is_none` check
failed, so whenever the swap point is reached the old value is Some; and
`Cursor::pop` returns Err at the root before popping, so the ancestor stack
is non-empty - its head exists - whenever it is popped, and pop succeeds. -/
theorem claim10_unwraps_guarded [LinearOrder K] [Inhabited K] :
    (∀ (b : Bst K V) (k : K) (ov : Option V),
        b.deleteSwapped k = some ov → ov.isSome = true)
    ∧ (∀ c : Cursor K V, c.isRoot = false →
        (c.frames.head?).isSome = true
        ∧ ∃ c2 : Cursor K V, c.popC = Except.ok c2) := by
  constructor
  · intro b k ov h
    have h2 : (if (b.findCursor k).2 = Ordering.eq
          ∧ (b.findCursor k).1.value.isNone = false
        then some ((b.findCursor k).1.value) else none) = some ov := h
    by_cases hc : (b.findCursor k).2 = Ordering.eq
        ∧ (b.findCursor k).1.value.isNone = false
    · rw [if_pos hc] at h2
      have hval : (b.findCursor k).1.value = ov := by injection h2
      rw [← hval]
      cases hov : (b.findCursor k).1.value with
      | none => rw [hov] at hc; exact absurd hc.2 (by simp)
      | some x => simp
    · rw [if_neg hc] at h2
      exact absurd h2 (by simp)
  · intro c h
    have hne : c.frames ≠ [] := by
      intro hnil
      rw [Cursor.isRoot, hnil] at h
      simp at h
    cases hl : c.frames with
    | nil => exact absurd hl hne
    | cons f fs =>
      constructor
      · rfl
      · have hp2 : c.popC = Except.ok
            { frames := fs, curSavedTag := f.savedTag, curSlotTag := f.slotTag,
              key := f.key, value := f.value,
              left := if f.dir = Dir.L then c.curTree else f.other,
              right := if f.dir = Dir.R then c.curTree else f.other,
              dir := f.dir, guardValid := true } := by
          unfold Cursor.popC
          rw [if_neg (by simp [h]), hl]
          rfl
        exact ⟨_, hp2⟩

/-- Witness for C10 at concrete inputs. -/
theorem claim10_witness :
    ((some 7 : Option Nat).isSome = true)
    ∧ ((exVacantLeafCursor.frames.head?).isSome = true
        ∧ ∃ c2 : Cursor Nat Nat, exVacantLeafCursor.popC = Except.ok c2) :=
  ⟨claim10_unwraps_guarded.1
      (Bst.mk (Tree.node 0 5 (some 7) Tree.null Tree.null) : Bst Nat Nat) 5 (some 7)
      (by decide),
   claim10_unwraps_guarded.2 exVacantLeafCursor rfl⟩
